import Mathlib

/-!
Verification of the `workflow` engine (inveniosoftware-contrib/workflow).

This file shallowly embeds the parts of `workflow/engine.py` and
`workflow/engine_db.py` that the checked claims are about:

* the transfer exceptions raised by callables,
* `MachineState` (the two-dimensional instruction pointer),
* the recursive callback walker `run_callbacks`,
* the outer token loop `_process` with its dispatch of transition
  exceptions by class name, wrapped by `process` (default arguments),
* `callback_chooser`, the `Callbacks` store with its flattening rule,
* the anchor dispatch of `restart`, and
* `DbTransitionAction.HaltProcessing` from the DB overlay.

Callables are modelled as pure functions that may update a user memory `σ`
and optionally raise a transfer exception; the engine threads everything
else.  Runs use fuel: `none` means the fuel ran out, `some (st, r)` is the
final engine state together with either a normal return or the exception
escaping to the caller.  The fields `invocations`, `after_object_calls`,
`signals`, `warnings` and `broke` are pure instrumentation recording
observable events (callable invocation boundaries, `after_object` calls,
signal emissions, logged warnings, `break` of the outer loop); they never
influence control flow.
-/

namespace Workflow

/-- Exceptions of the embedded program: the workflow transition exceptions
from `workflow/errors.py` plus the Python runtime errors the engine code can
raise (`KeyError`, `AttributeError`, `TypeError`, `IndexError`, plain
`Exception`).  `haltProcessing` records whether the exception carries an
`action` (used by the DB overlay). -/
inductive Exc where
  | breakFromThisLoop : Exc
  | jumpCall : Int → Exc
  | continueNextToken : Exc
  | stopProcessing : Exc
  | haltProcessing : Bool → Exc
  | jumpToken : Int → Exc
  | skipToken : Exc
  | abortProcessing : Exc
  | workflowError : String → Exc
  | keyError : String → Exc
  | attributeError : String → Exc
  | typeError : String → Exc
  | exception : String → Exc
  | indexError : Exc
  deriving DecidableEq, Repr

/-- A work item as the engine observes it: whether it has a `getFeature`
method, the value `getFeature("type")` would return (`none` models Python
`None`), and whether it has a `log` attribute (used by the effective
`SkipToken` / `AbortProcessing` transition actions). -/
structure Token where
  hasGetFeature : Bool
  ttype : Option String
  hasLog : Bool
  deriving DecidableEq, Repr

/-- `MachineState` (engine.py lines 94-159). -/
structure MachineState where
  token_pos : Int
  callback_pos : List Int
  current_object_processed : Bool
  deriving DecidableEq, Repr

/-- `MachineState.token_pos_reset`. -/
def MachineState.token_pos_reset (ms : MachineState) : MachineState :=
  { ms with token_pos := -1 }

/-- `MachineState.callback_pos_reset`. -/
def MachineState.callback_pos_reset (ms : MachineState) : MachineState :=
  { ms with callback_pos := [0] }

/-- `MachineState.reset`. -/
def MachineState.reset : MachineState :=
  { token_pos := -1, callback_pos := [0], current_object_processed := false }

/-- Value of a `MachineState` attribute, for modelling Python attribute
lookup (`getattr`). -/
inductive MsAttr where
  | intVal : Int → MsAttr
  | listVal : List Int → MsAttr
  | boolVal : Bool → MsAttr
  deriving DecidableEq, Repr

/-- Python attribute lookup on a `MachineState` instance: the class stores
exactly `token_pos`, `callback_pos` and `current_object_processed`
(engine.py lines 112-146, no `__getattr__` fallback), so any other name
raises `AttributeError`. -/
def MachineState.getAttr (ms : MachineState) (name : String) : Except Exc MsAttr :=
  if name = "token_pos" then Except.ok (MsAttr.intVal ms.token_pos)
  else if name = "callback_pos" then Except.ok (MsAttr.listVal ms.callback_pos)
  else if name = "current_object_processed" then
    Except.ok (MsAttr.boolVal ms.current_object_processed)
  else Except.error (Exc.attributeError name)

/-- `MachineState.__setattr__` applied to `token_pos` (engine.py lines
124-127): a value `< -1` raises `AttributeError`. -/
def MachineState.setTokenPos (ms : MachineState) (v : Int) : Except Exc MachineState :=
  if v < -1 then Except.error (Exc.attributeError "token_pos may not be < -1")
  else Except.ok { ms with token_pos := v }

/-- A program node: a callable leaf or a nested list of nodes.  A callable
receives the user memory and the current token and returns the new memory
together with `none` (normal return) or the exception it raises. -/
inductive Node (σ : Type) where
  | func : (σ → Token → σ × Option Exc) → Node σ
  | list : List (Node σ) → Node σ

/-- The whole observable state of a run: the `MachineState`, the engine's
stored `objects`, the user memory `mem` (standing for token payloads and
`extra_data`), and instrumentation (`signals`, `warnings`, `invocations` =
`callback_pos` snapshot at each callable invocation, `after_object_calls` =
`token_pos` at each `factory.after_object` call, `broke` = whether the outer
loop was left through `break`). -/
structure ESt (σ : Type) where
  state : MachineState
  objects : List Token
  mem : σ
  signals : List String
  warnings : List String
  invocations : List (List Int)
  after_object_calls : List Int
  broke : Bool
  deriving DecidableEq, Repr

/-- The engine state right after `GenericWorkflowEngine.__init__`. -/
def initSt {σ : Type} (m : σ) : ESt σ :=
  { state := MachineState.reset, objects := [], mem := m, signals := [],
    warnings := [], invocations := [], after_object_calls := [], broke := false }

/-- Shorthand for `state.callback_pos`. -/
def ESt.cp {σ : Type} (st : ESt σ) : List Int :=
  st.state.callback_pos

/-- Replace `state.callback_pos`. -/
def ESt.withCp {σ : Type} (st : ESt σ) (cp : List Int) : ESt σ :=
  { st with state := { st.state with callback_pos := cp } }

/-- Replace `state.token_pos`.  In the paths modelled here the engine only
ever assigns values `≥ -1` (`reset`, the loop increment and the clamped
`JumpToken` update), so the `__setattr__` guard of `MachineState` never
fires and is not threaded through. -/
def ESt.withTp {σ : Type} (st : ESt σ) (tp : Int) : ESt σ :=
  { st with state := { st.state with token_pos := tp } }

/-- Python sequence indexing: a negative index counts from the end, an index
out of range raises `IndexError` (modelled as `none`). -/
def pyIdx {α : Type} (xs : List α) (i : Int) : Option α :=
  let j := if i < 0 then (xs.length : Int) + i else i
  if 0 ≤ j ∧ j < (xs.length : Int) then xs.get? j.toNat else Option.none

/-- Python `list.pop(-1)`: popping from an empty list raises `IndexError`
(modelled as `none`). -/
def pyPop (xs : List Int) : Option (List Int) :=
  match xs with
  | [] => Option.none
  | _ => some xs.dropLast

/-- The value `run_callbacks` leaves in `callback_pos[indent]` after a
callable at position `pos` (in a frame of length `n`) raised
`JumpCall(step)`: the clamp from engine.py lines 488-499 followed by the
unconditional `callback_pos[indent] += 1` at line 500. -/
def jumpCallNext (n pos step : Int) : Int :=
  (if 0 ≤ step then min n (pos + step - 1) else max (-1) (pos + step - 1)) + 1

/-- `GenericWorkflowEngine.run_callbacks` (engine.py lines 429-503).  The
`objects` argument of the source is omitted: the walker only passes it along
unchanged.  Result: `none` when the fuel runs out, otherwise the final state
together with `Except.ok ()` (the frame returned, by falling off the loop or
through `BreakFromThisLoop`) or `Except.error e` (exception `e` propagates
to the caller).  `BreakFromThisLoop` and `JumpCall` are consumed here; any
other exception raised by a callable escapes with the state as it was at the
raise point (the indices appended on descent are deliberately not popped, so
`callback_pos` keeps addressing the raising callable). -/
def runCallbacks {σ : Type} :
    Nat → List (Node σ) → Nat → Token → ESt σ → Option (ESt σ × Except Exc Unit)
  | 0, _, _, _, _ => Option.none
  | Nat.succ fuel, callbacks, indent, obj, st =>
    match st.cp.get? indent with
    | Option.none => some (st, Except.error Exc.indexError)
    | some pos =>
      if pos < (callbacks.length : Int) then
        if st.cp.length - 1 > indent then
          -- `was_restarted`: fast-forward into the deeper frame recorded at
          -- halt time, then pop the crumb and advance (lines 444-457)
          match pyIdx callbacks pos with
          | Option.none => some (st, Except.error Exc.indexError)
          | some (Node.func _) =>
            -- Python: `len()` of a plain callable raises `TypeError`
            some (st, Except.error (Exc.typeError "object of type function has no len"))
          | some (Node.list children) =>
            match runCallbacks fuel children (indent + 1) obj st with
            | Option.none => Option.none
            | some (st1, Except.error e) => some (st1, Except.error e)
            | some (st1, Except.ok _) =>
              match pyPop st1.cp with
              | Option.none => some (st1, Except.error Exc.indexError)
              | some cp1 =>
                match cp1.get? indent with
                | Option.none => some (st1.withCp cp1, Except.error Exc.indexError)
                | some v =>
                  runCallbacks fuel callbacks indent obj (st1.withCp (cp1.set indent (v + 1)))
        else
          match pyIdx callbacks pos with
          | Option.none => some (st, Except.error Exc.indexError)
          | some (Node.list children) =>
            -- `isinstance(inner_callbacks, Iterable)` (lines 460-468):
            -- append 0, recurse, pop, advance
            match runCallbacks fuel children (indent + 1) obj (st.withCp (st.cp ++ [0])) with
            | Option.none => Option.none
            | some (st1, Except.error e) => some (st1, Except.error e)
            | some (st1, Except.ok _) =>
              match pyPop st1.cp with
              | Option.none => some (st1, Except.error Exc.indexError)
              | some cp1 =>
                match cp1.get? indent with
                | Option.none => some (st1.withCp cp1, Except.error Exc.indexError)
                | some v =>
                  runCallbacks fuel callbacks indent obj (st1.withCp (cp1.set indent (v + 1)))
          | some (Node.func f) =>
            -- callable invocation (lines 469-485); the snapshot of
            -- `callback_pos` is recorded in `invocations`
            let st1 := { st with invocations := st.invocations ++ [st.cp] }
            let r := f st1.mem obj
            let st2 := { st1 with mem := r.1 }
            match r.2 with
            | Option.none =>
              runCallbacks fuel callbacks indent obj (st2.withCp (st2.cp.set indent (pos + 1)))
            | some Exc.breakFromThisLoop =>
              -- `except BreakFromThisLoop: return` (line 486-487): no final
              -- decrement
              some (st2, Except.ok ())
            | some (Exc.jumpCall step) =>
              runCallbacks fuel callbacks indent obj
                (st2.withCp (st2.cp.set indent (jumpCallNext (callbacks.length : Int) pos step)))
            | some e => some (st2, Except.error e)
      else
        -- loop exit: `callback_pos[indent] -= 1` (lines 501-503)
        some (st.withCp (st.cp.set indent (pos - 1)), Except.ok ())

/-- The callbacks store of one engine: an association list from workflow key
to the stored program (standing for `Callbacks._dict`). -/
def CbDict (σ : Type) : Type :=
  List (String × List (Node σ))

/-- Plain dictionary lookup. -/
def cbLookup {σ : Type} : CbDict σ → String → Option (List (Node σ))
  | [], _ => Option.none
  | (k, v) :: rest, key => if k = key then some v else cbLookup rest key

/-- `Callbacks.get` through `_CallbacksDict.__getitem__` (engine.py lines
162-204): an unknown key raises a `KeyError` whose message names the key. -/
def cbGet {σ : Type} (d : CbDict σ) (key : String) : Except Exc (List (Node σ)) :=
  match cbLookup d key with
  | some v => Except.ok v
  | Option.none => Except.error (Exc.keyError key)

/-- `Callbacks.empty` (engine.py lines 250-252). -/
def cbEmpty {σ : Type} (d : CbDict σ) : Bool :=
  d.isEmpty

/-- `GenericWorkflowEngine.callback_chooser` (engine.py lines 402-427).
When the object has `getFeature`, the chooser returns the program keyed by
the feature only when `t` is truthy (`if t:`); for a falsy `t` (Python
`None` or the empty string) the function falls through and returns Python
`None`.  Only objects without `getFeature` get the default `"*"` program. -/
def callback_chooser {σ : Type} (d : CbDict σ) (obj : Token) :
    Except Exc (Option (List (Node σ))) :=
  if obj.hasGetFeature then
    match obj.ttype with
    | some t =>
      if t = "" then Except.ok Option.none
      else (cbGet d t).map some
    | Option.none => Except.ok Option.none
  else
    (cbGet d "*").map some

/-- Python truthiness of the value returned by `callback_chooser`, as tested
by `if callbacks:` in `_process`: `None` and the empty list are falsy. -/
def frameTruthy {σ : Type} : Option (List (Node σ)) → Bool
  | some p => !p.isEmpty
  | Option.none => false

/-- Outcome of invoking a transition-action handler inside `_process`:
the handler returned normally, raised `Break`, raised `Continue`, or raised
some other exception (which then escapes `_process`). -/
inductive DispatchOut where
  | normal : DispatchOut
  | brk : DispatchOut
  | cont : DispatchOut
  | raised : Exc → DispatchOut
  deriving DecidableEq, Repr

/-- The `TransitionActions` dispatch as `_process` performs it (engine.py
lines 534-554 together with the class body 892-990): the handler is looked
up by the exception's class name, unknown names fall back to
`TransitionActions.Exception`, which emits `workflow_halted` and re-raises.
In the class body `SkipToken` and `AbortProcessing` are each defined twice;
the second definitions (lines 972-990) are the effective ones and both call
`obj.log.debug`, which raises `AttributeError` when the object has no `log`
attribute.  `JumpToken` clamps `token_pos` against `len(eng)` =
`len(eng.objects)` (lines 920-929). -/
def transitionDispatch {σ : Type} (e : Exc) (obj : Token) (st : ESt σ) :
    ESt σ × DispatchOut :=
  match e with
  | Exc.stopProcessing => (st, DispatchOut.brk)
  | Exc.haltProcessing _ =>
    ({ st with signals := st.signals ++ ["workflow_halted"] }, DispatchOut.raised e)
  | Exc.continueNextToken => (st.withCp [0], DispatchOut.cont)
  | Exc.jumpToken step =>
    let tp := if step > 0 then min (st.objects.length : Int) (st.state.token_pos - 1 + step)
      else max (-1) (st.state.token_pos - 1 + step)
    ((st.withCp [0]).withTp tp, DispatchOut.normal)
  | Exc.skipToken =>
    if obj.hasLog then (st, DispatchOut.cont)
    else (st, DispatchOut.raised (Exc.attributeError "log"))
  | Exc.abortProcessing =>
    if obj.hasLog then (st, DispatchOut.brk)
    else (st, DispatchOut.raised (Exc.attributeError "log"))
  | _ =>
    ({ st with signals := st.signals ++ ["workflow_halted"] }, DispatchOut.raised e)

/-- The `while` loop of `GenericWorkflowEngine._process` (engine.py lines
518-557).  One fuel unit per iteration. -/
def processLoop {σ : Type} :
    Nat → CbDict σ → List Token → ESt σ → Option (ESt σ × Except Exc Unit)
  | 0, _, _, _ => Option.none
  | Nat.succ fuel, d, objectsArg, st =>
    if (objectsArg.length : Int) - 1 > st.state.token_pos then
      let st := st.withTp (st.state.token_pos + 1)
      match pyIdx objectsArg st.state.token_pos with
      | Option.none => some (st, Except.error Exc.indexError)
      | some obj =>
        -- `processing_factory.before_object` is a no-op in the generic
        -- factory (lines 1022-1025)
        match callback_chooser d obj with
        | Except.error e => some (st, Except.error e)
        | Except.ok cbs =>
          if frameTruthy cbs then
            match runCallbacks fuel (cbs.getD []) 0 obj st with
            | Option.none => Option.none
            | some (st1, Except.ok _) =>
              -- the `else:` of the `try` (lines 555-556): `after_object`
              -- runs only when `run_callbacks` raised nothing
              let st2 :=
                { st1 with after_object_calls := st1.after_object_calls ++ [st1.state.token_pos] }
              processLoop fuel d objectsArg (st2.withCp [0])
            | some (st1, Except.error e) =>
              match transitionDispatch e obj st1 with
              | (st2, DispatchOut.raised e2) => some (st2, Except.error e2)
              | (st2, DispatchOut.brk) => some ({ st2 with broke := true }, Except.ok ())
              | (st2, DispatchOut.cont) => processLoop fuel d objectsArg st2
              | (st2, DispatchOut.normal) => processLoop fuel d objectsArg (st2.withCp [0])
          else
            -- falsy program: the whole `if callbacks:` block is skipped; in
            -- particular `after_object` is NOT called (there is no `else`
            -- on `if callbacks:` in the source)
            processLoop fuel d objectsArg (st.withCp [0])
    else
      some (st, Except.ok ())

/-- `GenericWorkflowEngine._process` (engine.py lines 505-558):
`before_processing` (emit `workflow_started`, clear the flag, store the
objects, lines 1006-1014), the token loop, and — only when the loop is left
normally — `after_processing` (emit `workflow_finished`, set the flag, lines
1016-1020). -/
def _process {σ : Type} (fuel : Nat) (d : CbDict σ) (objectsArg : List Token)
    (st : ESt σ) : Option (ESt σ × Except Exc Unit) :=
  let st1 := { st with
    signals := st.signals ++ ["workflow_started"],
    state := { st.state with current_object_processed := false },
    objects := objectsArg }
  match processLoop fuel d objectsArg st1 with
  | Option.none => Option.none
  | some (st2, Except.error e) => some (st2, Except.error e)
  | some (st2, Except.ok _) =>
    some ({ st2 with
      signals := st2.signals ++ ["workflow_finished"],
      state := { st2.state with current_object_processed := true } }, Except.ok ())

/-- Warning logged by `_pre_flight_checks` on an empty token list. -/
def emptyWarning : String :=
  "List of objects is empty. Running workflow on empty set has no effect."

/-- `GenericWorkflowEngine.process` with its default arguments
(`stop_on_error = stop_on_halt = True`, `initial_run = True`,
`reset_state = True`), engine.py lines 353-400: the pre-flight checks (the
token argument of this model is always a non-string iterable), the state
reset, and one call of `_process`; with the default flags a re-raised
`HaltProcessing` or `WorkflowError` simply escapes. -/
def process {σ : Type} (fuel : Nat) (d : CbDict σ) (objectsArg : List Token)
    (st : ESt σ) : Option (ESt σ × Except Exc Unit) :=
  let st1 := if objectsArg.isEmpty then
      { st with warnings := st.warnings ++ [emptyWarning] }
    else st
  if cbEmpty d then
    some (st1, Except.error (Exc.workflowError "The callbacks are empty, did you set them?"))
  else
    _process fuel d objectsArg { st1 with state := MachineState.reset }

/-- Number of `%s` conversion specifiers in a Python format string. -/
def percentSCount : List Char → Nat
  | '%' :: 's' :: rest => 1 + percentSCount rest
  | _ :: rest => percentSCount rest
  | [] => 0

/-- Substitute the first `%s` of a format string. -/
def substPercentS : List Char → String → String
  | '%' :: 's' :: rest, arg => arg ++ String.mk rest
  | c :: rest, arg => String.mk [c] ++ substPercentS rest arg
  | [], _ => ""

/-- Python `fmt % arg` where `arg` is one string (not a tuple): it succeeds
only when `fmt` holds exactly one `%s`; with more specifiers Python raises
`TypeError: not enough arguments for format string`, with none it raises
`TypeError: not all arguments converted during string formatting`. -/
def pyFormatOneStr (fmt : String) (arg : String) : Except Exc String :=
  if percentSCount fmt.data = 1 then Except.ok (substPercentS fmt.data arg)
  else if 1 < percentSCount fmt.data then
    Except.error (Exc.typeError "not enough arguments for format string")
  else Except.error (Exc.typeError "not all arguments converted during string formatting")

/-- Python `cp[-1] += d` on a `callback_pos` list: adjusting the last
element; on an empty list Python raises `IndexError`. -/
def cpAdjustLast (cp : List Int) (d : Int) : Except Exc (List Int) :=
  match cp with
  | [] => Except.error Exc.indexError
  | _ => Except.ok (cp.dropLast ++ [cp.getLast! + d])

/-- The anchor dispatch of `GenericWorkflowEngine.restart` (engine.py lines
625-653), up to but not including the re-entry into `process`.  For an
unknown `obj` anchor the source builds
`Exception('Unknown start point %s for object: %s' % obj)`; since `obj` is a
single string and the format holds two `%s`, evaluating the `%` raises
`TypeError` before the `Exception` is even constructed.  The unknown-task
branch formats `obj` — not `task` — into its single `%s`. -/
def restartAdjust (obj task : String) (ms : MachineState) : Except Exc MachineState := do
  let ms1 ←
    if obj = "prev" then ms.setTokenPos (ms.token_pos - 2)
    else if obj = "current" then ms.setTokenPos (ms.token_pos - 1)
    else if obj = "next" then Except.ok ms
    else if obj = "first" then ms.setTokenPos (-1)
    else do
      let m ← pyFormatOneStr "Unknown start point %s for object: %s" obj
      Except.error (Exc.exception m)
  if task = "prev" then
    (cpAdjustLast ms1.callback_pos (-1)).map fun cp => { ms1 with callback_pos := cp }
  else if task = "current" then Except.ok ms1
  else if task = "next" then
    (cpAdjustLast ms1.callback_pos 1).map fun cp => { ms1 with callback_pos := cp }
  else if task = "first" then Except.ok { ms1 with callback_pos := [0] }
  else do
    let m ← pyFormatOneStr "Unknown start point for task: %s" obj
    Except.error (Exc.exception m)

/-- Object statuses of the DB overlay (`_ObjectStatus`, engine_db.py lines
58-100): `INITIAL = 0`, `COMPLETED = 1`, `HALTED = 2`, `RUNNING = 3`,
`WAITING = 4`, `ERROR = 5`. -/
def ObjectStatusHALTED : Int := 2

/-- `_ObjectStatus.WAITING`. -/
def ObjectStatusWAITING : Int := 4

/-- `WorkflowStatus.HALTED` (engine_db.py lines 34-52). -/
def WorkflowStatusHALTED : Int := 2

/-- Observable persistence effects of the DB overlay: the halted counter,
the `obj.save(version, task_counter, ...)` calls, the `eng.save(status)`
calls and whether `obj.set_action` was called. -/
structure DbState where
  counter_halted : Int
  obj_saves : List (Int × MsAttr)
  eng_saves : List Int
  action_set : Bool
  deriving DecidableEq, Repr

/-- `DbTransitionAction.HaltProcessing` (engine_db.py lines 330-346),
with `hasAction` = whether the caught `HaltProcessing` carries an `action`.
The keyword argument `task_counter=eng.state.task_pos` performs an attribute
lookup of `task_pos` on the `MachineState` instance; Python evaluates the
arguments of `obj.save(...)` left to right, so this lookup happens before
`save` can be called. -/
def DbHaltProcessing (hasAction : Bool) (ms : MachineState) (db : DbState) :
    DbState × Except Exc Unit :=
  let db1 := { db with counter_halted := db.counter_halted + 1 }
  let db2 := if hasAction then { db1 with action_set := true } else db1
  let version := if hasAction then ObjectStatusHALTED else ObjectStatusWAITING
  match ms.getAttr "task_pos" with
  | Except.error e => (db2, Except.error e)
  | Except.ok v =>
    -- dead code in the source: `MachineState` defines no `task_pos`
    let db3 := { db2 with obj_saves := db2.obj_saves ++ [(version, v)] }
    let db4 := { db3 with eng_saves := db3.eng_saves ++ [WorkflowStatusHALTED] }
    -- `super(...).HaltProcessing` re-raises the original exception
    (db4, Except.error (Exc.haltProcessing hasAction))

/-- The values `Callbacks.cleanup_callables`, `add` and `add_many` operate
on: a callable leaf (identified by a number), Python `None`, a list, or a
tuple. -/
inductive PyTree where
  | func : Nat → PyTree
  | nil : PyTree
  | list : List PyTree → PyTree
  | tuple : List PyTree → PyTree
  deriving Repr

/-- Python truthiness of a `PyTree` value: `None` and empty sequences are
falsy, callables and non-empty sequences truthy. -/
def pyTruthy : PyTree → Bool
  | PyTree.func _ => true
  | PyTree.nil => false
  | PyTree.list xs => !xs.isEmpty
  | PyTree.tuple xs => !xs.isEmpty

mutual

/-- What one element of the iterated sequence contributes to the output of
`Callbacks.cleanup_callables` (engine.py lines 223-239): a list is kept
nested with its contents recursively cleaned, a tuple is recursively spliced
in place, `None` is dropped, a callable is kept. -/
def cleanupOne : PyTree → List PyTree
  | PyTree.func i => [PyTree.func i]
  | PyTree.nil => []
  | PyTree.list ys => [PyTree.list (cleanupList ys)]
  | PyTree.tuple ys => cleanupList ys

/-- `list(Callbacks.cleanup_callables(callbacks))` for a list argument (the
generator's `for x in callbacks:` loop; the `if callable(callbacks)` branch
cannot fire for a list). -/
def cleanupList : List PyTree → List PyTree
  | [] => []
  | x :: xs => cleanupOne x ++ cleanupList xs

end

/-- `Callbacks.add` (engine.py lines 206-215) restricted to one key: `entry`
is the current dictionary entry for the key (`none` = key absent).  With the
key present, `if func:` appends only truthy values; with the key absent, a
truthy `func` triggers the `KeyError` path which creates the entry and
appends unconditionally, while a falsy `func` never touches the dictionary
(the `self.get(key)` inside `if func:` is not reached). -/
def cbAdd (entry : Option (List PyTree)) (f : PyTree) : Option (List PyTree) :=
  match entry with
  | some fs => if pyTruthy f then some (fs ++ [f]) else some fs
  | Option.none => if pyTruthy f then some [f] else Option.none

/-- `Callbacks.add_many` (engine.py lines 217-221) restricted to one key:
clean the sequence, then `add` each element in order. -/
def cbAddMany (entry : Option (List PyTree)) (seq : List PyTree) : Option (List PyTree) :=
  (cleanupList seq).foldl cbAdd entry

/-- `Callbacks.replace` (engine.py lines 254-258): clean the input, clear
the key, then `add_many` (which cleans again).  The result is the stored
entry for the key (`none` = no entry was created). -/
def cbReplace (funcs : List PyTree) : Option (List PyTree) :=
  cbAddMany Option.none (cleanupList funcs)

/-- Descend a program along a path of indices, requiring every step to pass
through an in-range, non-negative index of a `list` node; the result is the
frame (list of sibling nodes) the path leads to. -/
def frameAt {σ : Type} : List (Node σ) → List Int → Option (List (Node σ))
  | frame, [] => some frame
  | frame, i :: rest =>
    if 0 ≤ i then
      match frame.get? i.toNat with
      | some (Node.list children) => frameAt children rest
      | _ => Option.none
    else Option.none

/-- A `callback_pos` value addresses a callable-invocation position of the
program `prog`: it is non-empty, all entries on the way descend through
nested `list` nodes, and the final entry is a non-negative in-range index of
the frame reached.  In particular the length of the path never exceeds the
nesting depth of the program at the position it addresses. -/
def addrOkB {σ : Type} (prog : List (Node σ)) (p : List Int) : Bool :=
  match p.getLast? with
  | Option.none => false
  | some last =>
    match frameAt prog p.dropLast with
    | some f => decide (0 ≤ last) && decide (last < (f.length : Int))
    | Option.none => false

/-- The fields of the run state that `run_callbacks` never touches (it only
manipulates `callback_pos`, the user memory and the invocation trace). -/
def ESt.others {σ : Type} (st : ESt σ) :
    Int × List Token × Bool × List Int × List String × List String :=
  (st.state.token_pos, st.objects, st.broke, st.after_object_calls, st.signals, st.warnings)

/-- Did the run end with a normal return? -/
def excIsOk : Except Exc Unit → Bool
  | Except.ok _ => true
  | Except.error _ => false

/-- A token with neither `getFeature` nor special features, with a `log`
attribute. -/
def tokPlain : Token :=
  { hasGetFeature := false, ttype := Option.none, hasLog := true }

/-- A token with `getFeature` present but `getFeature("type")` returning
Python `None`. -/
def tokNilType : Token :=
  { hasGetFeature := true, ttype := Option.none, hasLog := true }

/-- A token without a `log` attribute. -/
def tokNoLog : Token :=
  { hasGetFeature := false, ttype := Option.none, hasLog := false }

/-- One callable that does nothing. -/
def noopProg : List (Node Unit) :=
  [Node.func fun m _ => (m, Option.none)]

/-- Callback dictionary holding `noopProg` under the default key. -/
def noopDict : CbDict Unit :=
  [("*", noopProg)]

/-- One callable that raises `JumpToken(5)`. -/
def jumpTokenProg : List (Node Unit) :=
  [Node.func fun m _ => (m, some (Exc.jumpToken 5))]

/-- Callback dictionary holding `jumpTokenProg` under the default key. -/
def jumpTokenDict : CbDict Unit :=
  [("*", jumpTokenProg)]

/-- One callable that raises `SkipToken` (what `engine.skip_token()` does). -/
def skipProg : List (Node Unit) :=
  [Node.func fun m _ => (m, some Exc.skipToken)]

/-- One callable that raises `AbortProcessing` (what `engine.abort()`
does). -/
def abortProg : List (Node Unit) :=
  [Node.func fun m _ => (m, some Exc.abortProcessing)]

/-- An engine state mid-run: one stored object, `token_pos = 3`,
`callback_pos = [2]`, `current_object_processed = true`. -/
def c2Pre : ESt Unit :=
  { initSt () with objects := [tokPlain], state := ⟨3, [2], true⟩ }

/-- A nested program used to witness the `callback_pos` invariant:
`[f, [f, [f], f], f]`, with each callable appending its path marker. -/
def nestedProg : List (Node (List Nat)) :=
  [Node.func (fun m _ => (m ++ [0], Option.none)),
   Node.list [Node.func (fun m _ => (m ++ [1], Option.none)),
              Node.list [Node.func (fun m _ => (m ++ [2], Option.none))],
              Node.func (fun m _ => (m ++ [3], Option.none))],
   Node.func (fun m _ => (m ++ [4], Option.none))]

/-- The final state of running `nestedProg` over one token from a reset
`callback_pos` (used by the invariant witness). -/
def nestedFinal : ESt (List Nat) :=
  { state := ⟨-1, [2], false⟩, objects := [], mem := [0, 1, 2, 3, 4], signals := [],
    warnings := [], invocations := [[0], [1, 0], [1, 1, 0], [1, 2], [2]],
    after_object_calls := [], broke := false }

/-- The final state of the `C1_amended` witness run: one plain token through
`noopProg`. -/
def c1wFinal : ESt Unit :=
  { state := ⟨0, [0], true⟩, objects := [tokPlain], mem := (), signals :=
    ["workflow_started", "workflow_finished"], warnings := [], invocations := [[0]],
    after_object_calls := [0], broke := false }

/-- The engine state at the moment the transition dispatch runs for the
first token of a run whose program is one exception-raising callable:
`token_pos = 0`, `callback_pos = [0]` (still addressing the raiser), one
recorded invocation, `workflow_started` emitted, nothing else touched. -/
def raiserSt {σ : Type} (m0 : σ) (t : Token) (ts : List Token) : ESt σ :=
  { state := ⟨0, [0], false⟩, objects := t :: ts, mem := m0,
    signals := ["workflow_started"], warnings := [], invocations := [[0]],
    after_object_calls := [], broke := false }

/-! Helper lemmas about the state combinators and Python list primitives. -/

@[simp]
theorem ESt.cp_withCp {σ : Type} (st : ESt σ) (cp : List Int) : (st.withCp cp).cp = cp :=
  rfl

@[simp]
theorem ESt.cp_withTp {σ : Type} (st : ESt σ) (v : Int) : (st.withTp v).cp = st.cp :=
  rfl

@[simp]
theorem ESt.others_withCp {σ : Type} (st : ESt σ) (cp : List Int) :
    (st.withCp cp).others = st.others :=
  rfl

@[simp]
theorem ESt.withCp_invocations {σ : Type} (st : ESt σ) (cp : List Int) :
    (st.withCp cp).invocations = st.invocations :=
  rfl

@[simp]
theorem ESt.withCp_token_pos {σ : Type} (st : ESt σ) (cp : List Int) :
    (st.withCp cp).state.token_pos = st.state.token_pos :=
  rfl

@[simp]
theorem ESt.withCp_objects {σ : Type} (st : ESt σ) (cp : List Int) :
    (st.withCp cp).objects = st.objects :=
  rfl

@[simp]
theorem ESt.withCp_broke {σ : Type} (st : ESt σ) (cp : List Int) :
    (st.withCp cp).broke = st.broke :=
  rfl

@[simp]
theorem ESt.withTp_token_pos {σ : Type} (st : ESt σ) (v : Int) :
    (st.withTp v).state.token_pos = v :=
  rfl

@[simp]
theorem ESt.withTp_objects {σ : Type} (st : ESt σ) (v : Int) :
    (st.withTp v).objects = st.objects :=
  rfl

@[simp]
theorem ESt.withTp_broke {σ : Type} (st : ESt σ) (v : Int) :
    (st.withTp v).broke = st.broke :=
  rfl

@[simp]
theorem ESt.withTp_invocations {σ : Type} (st : ESt σ) (v : Int) :
    (st.withTp v).invocations = st.invocations :=
  rfl

@[simp]
theorem ESt.withTp_after_object_calls {σ : Type} (st : ESt σ) (v : Int) :
    (st.withTp v).after_object_calls = st.after_object_calls :=
  rfl

@[simp]
theorem ESt.withCp_after_object_calls {σ : Type} (st : ESt σ) (cp : List Int) :
    (st.withCp cp).after_object_calls = st.after_object_calls :=
  rfl

theorem pyIdx_nonneg_lt {α : Type} (xs : List α) (i : Int) (h0 : 0 ≤ i)
    (h1 : i < (xs.length : Int)) : pyIdx xs i = xs.get? i.toNat := by
  have hw : ¬ i < 0 := by omega
  simp only [pyIdx, hw, if_false]
  rw [if_pos ⟨h0, h1⟩]

theorem pyIdx_cons_zero {α : Type} (x : α) (xs : List α) : pyIdx (x :: xs) 0 = some x := by
  rw [pyIdx_nonneg_lt (x :: xs) 0 le_rfl (by push_cast [List.length_cons]; omega)]
  rfl

theorem set_concat (l : List Int) (a b : Int) : (l ++ [a]).set l.length b = l ++ [b] := by
  induction l with
  | nil => rfl
  | cons x xs ih =>
    simp only [List.cons_append, List.length_cons, List.set]
    exact congrArg (List.cons x) ih

theorem frameAt_concat {σ : Type} {prog frame children : List (Node σ)} {ctx : List Int}
    {j : Int} (hf : frameAt prog ctx = some frame) (hj : 0 ≤ j)
    (hc : frame.get? j.toNat = some (Node.list children)) :
    frameAt prog (ctx ++ [j]) = some children := by
  induction ctx generalizing prog with
  | nil =>
    simp only [frameAt] at hf
    injection hf with hfe
    subst hfe
    simp only [List.nil_append, frameAt]
    rw [if_pos hj, hc]
  | cons i rest ih =>
    rw [List.cons_append]
    simp only [frameAt] at hf ⊢
    by_cases hi : 0 ≤ i
    · rw [if_pos hi] at hf ⊢
      cases hg : prog.get? i.toNat with
      | none => rw [hg] at hf; simp at hf
      | some node =>
        cases node with
        | func f => rw [hg] at hf; simp at hf
        | list ch =>
          rw [hg] at hf
          exact ih hf
    · rw [if_neg hi] at hf
      simp at hf

theorem frameAt_nonneg {σ : Type} {prog f : List (Node σ)} {ctx : List Int}
    (h : frameAt prog ctx = some f) : ∀ i ∈ ctx, 0 ≤ i := by
  induction ctx generalizing prog with
  | nil => intro i hi; simp at hi
  | cons x rest ih =>
    intro i hi
    simp only [frameAt] at h
    by_cases hx : 0 ≤ x
    · rw [if_pos hx] at h
      rcases List.mem_cons.mp hi with h1 | h1
      · subst h1; exact hx
      · cases hg : prog.get? x.toNat with
        | none => rw [hg] at h; simp at h
        | some node =>
          cases node with
          | func f2 => rw [hg] at h; simp at h
          | list ch =>
            rw [hg] at h
            exact ih h i h1
    · rw [if_neg hx] at h
      simp at h

theorem jumpCallNext_nonneg (n pos step : Int) (h0 : 0 ≤ pos) (hn : 0 ≤ n) :
    0 ≤ jumpCallNext n pos step := by
  unfold jumpCallNext
  split <;> omega

theorem runCallbacks_others {σ : Type} :
    ∀ (fuel : Nat) (callbacks : List (Node σ)) (indent : Nat) (obj : Token)
      (st st' : ESt σ) (r : Except Exc Unit),
      runCallbacks fuel callbacks indent obj st = some (st', r) → st'.others = st.others := by
  intro fuel
  induction fuel with
  | zero =>
    intro callbacks indent obj st st' r h
    simp [runCallbacks] at h
  | succ fuel IH =>
    intro callbacks indent obj st st' r h
    simp only [runCallbacks] at h
    split at h
    · injection h with h
      injection h with h1 h2
      subst h1
      rfl
    · split at h
      · split at h
        · -- fast-forward branch
          split at h
          · injection h with h
            injection h with h1 h2
            subst h1
            rfl
          · injection h with h
            injection h with h1 h2
            subst h1
            rfl
          · split at h
            · exact absurd h (by simp)
            · rename_i heq
              injection h with h
              injection h with h1 h2
              subst h1
              have hx := IH _ _ _ _ _ _ heq
              exact hx
            · rename_i heq
              split at h
              · injection h with h
                injection h with h1 h2
                subst h1
                have hx := IH _ _ _ _ _ _ heq
                exact hx
              · split at h
                · injection h with h
                  injection h with h1 h2
                  subst h1
                  have hx := IH _ _ _ _ _ _ heq
                  exact hx
                · have hx1 := IH _ _ _ _ _ _ h
                  have hx2 := IH _ _ _ _ _ _ heq
                  exact hx1.trans hx2
        · -- normal walk
          split at h
          · injection h with h
            injection h with h1 h2
            subst h1
            rfl
          · -- descent into a nested list
            split at h
            · exact absurd h (by simp)
            · rename_i heq
              injection h with h
              injection h with h1 h2
              subst h1
              have hx := IH _ _ _ _ _ _ heq
              exact hx
            · rename_i heq
              split at h
              · injection h with h
                injection h with h1 h2
                subst h1
                have hx := IH _ _ _ _ _ _ heq
                exact hx
              · split at h
                · injection h with h
                  injection h with h1 h2
                  subst h1
                  have hx := IH _ _ _ _ _ _ heq
                  exact hx
                · have hx1 := IH _ _ _ _ _ _ h
                  have hx2 := IH _ _ _ _ _ _ heq
                  exact hx1.trans hx2
          · -- callable invocation
            split at h
            · have hx := IH _ _ _ _ _ _ h
              exact hx
            · injection h with h
              injection h with h1 h2
              subst h1
              rfl
            · have hx := IH _ _ _ _ _ _ h
              exact hx
            · injection h with h
              injection h with h1 h2
              subst h1
              rfl
      · injection h with h
        injection h with h1 h2
        subst h1
        rfl

theorem transitionDispatch_others {σ : Type} (e : Exc) (obj : Token) (st : ESt σ) :
    (transitionDispatch e obj st).1.objects = st.objects ∧
    (transitionDispatch e obj st).1.broke = st.broke ∧
    (transitionDispatch e obj st).1.state.token_pos ≤
      max st.state.token_pos (st.objects.length : Int) := by
  cases e <;>
    first
      | exact ⟨rfl, rfl, le_max_left _ _⟩
      | (simp only [transitionDispatch]
         split <;> exact ⟨rfl, rfl, le_max_left _ _⟩)
      | (refine ⟨rfl, rfl, ?_⟩
         simp only [transitionDispatch, ESt.withTp_token_pos]
         split <;> omega)

theorem others_fields {σ : Type} {a b : ESt σ} (h : a.others = b.others) :
    a.state.token_pos = b.state.token_pos ∧ a.objects = b.objects ∧ a.broke = b.broke := by
  unfold ESt.others at h
  refine ⟨congrArg (fun x => x.1) h, congrArg (fun x => x.2.1) h,
    congrArg (fun x => x.2.2.1) h⟩

theorem processLoop_bounds {σ : Type} :
    ∀ (fuel : Nat) (d : CbDict σ) (tokens : List Token) (st st' : ESt σ),
      st.objects = tokens → st.state.token_pos ≤ (tokens.length : Int) →
      processLoop fuel d tokens st = some (st', Except.ok ()) →
      st'.state.token_pos ≤ (tokens.length : Int) ∧
      (st'.broke = false → (tokens.length : Int) - 1 ≤ st'.state.token_pos) := by
  intro fuel
  induction fuel with
  | zero =>
    intro d tokens st st' hobj htp h
    simp [processLoop] at h
  | succ fuel IH =>
    intro d tokens st st' hobj htp h
    simp only [processLoop] at h
    split at h
    · rename_i hcond
      split at h
      · exact absurd h (by simp)
      · rename_i obj hidx
        split at h
        · exact absurd h (by simp)
        · rename_i cbs hch
          split at h
          · split at h
            · exact absurd h (by simp)
            · rename_i st1 u heq
              have hoth := others_fields (runCallbacks_others _ _ _ _ _ _ _ heq)
              refine IH d tokens _ st' ?_ ?_ h
              · exact (show st1.objects = st.objects by simpa using hoth.2.1).trans hobj
              · have : st1.state.token_pos = st.state.token_pos + 1 := by
                  simpa using hoth.1
                simp only [ESt.withCp_token_pos]
                omega
            · rename_i st1 e heq
              have hoth := others_fields (runCallbacks_others _ _ _ _ _ _ _ heq)
              have h1 : st1.objects = st.objects := by simpa using hoth.2.1
              rw [hobj] at h1
              have h2 : st1.state.token_pos = st.state.token_pos + 1 := by
                simpa using hoth.1
              have hdis := transitionDispatch_others e obj st1
              split at h
              · exact absurd h (by simp)
              · rename_i st2 heq2
                injection h with h
                injection h with hA hB
                subst hA
                rw [heq2] at hdis
                dsimp only at hdis
                constructor
                · dsimp only
                  rw [h1] at hdis
                  omega
                · intro hb
                  simp at hb
              · rename_i st2 heq2
                rw [heq2] at hdis
                dsimp only at hdis
                refine IH d tokens st2 st' ?_ ?_ h
                · rw [hdis.1, h1]
                · rw [h1] at hdis
                  omega
              · rename_i st2 heq2
                rw [heq2] at hdis
                dsimp only at hdis
                refine IH d tokens _ st' ?_ ?_ h
                · simp only [ESt.withCp_objects]
                  rw [hdis.1, h1]
                · simp only [ESt.withCp_token_pos]
                  rw [h1] at hdis
                  omega
          · refine IH d tokens _ st' ?_ ?_ h
            · simpa using hobj
            · simp only [ESt.withCp_token_pos, ESt.withTp_token_pos]
              omega
    · rename_i hcond
      injection h with h
      injection h with hA hB
      subst hA
      exact ⟨htp, fun _ => by omega⟩

theorem pyPop_concat (l : List Int) (a : Int) : pyPop (l ++ [a]) = some l := by
  cases l with
  | nil => rfl
  | cons x xs =>
    show some (((x :: xs) ++ [a]).dropLast) = some (x :: xs)
    rw [List.dropLast_concat]

theorem addrOkB_concat {σ : Type} {prog frame : List (Node σ)} {ctx : List Int} {j : Int}
    (hfr : frameAt prog ctx = some frame) (hj : 0 ≤ j) (hlt : j < (frame.length : Int)) :
    addrOkB prog (ctx ++ [j]) = true := by
  unfold addrOkB
  rw [List.getLast?_concat, List.dropLast_concat, hfr]
  simp [hj, hlt]

theorem addrOkB_shape {σ : Type} {prog : List (Node σ)} {p : List Int}
    (h : addrOkB prog p = true) : p ≠ [] ∧ ∀ i ∈ p, 0 ≤ i := by
  unfold addrOkB at h
  split at h
  · exact absurd h (by simp)
  · rename_i last hlast
    split at h
    · rename_i f hf
      have hne : p ≠ [] := by
        intro he; rw [he] at hlast; simp at hlast
      refine ⟨hne, ?_⟩
      intro i hi
      have hsplit : p.dropLast ++ [last] = p := by
        have h1 := List.dropLast_append_getLast hne
        have h2 := List.getLast?_eq_getLast p hne
        rw [hlast] at h2
        injection h2 with h2
        rw [← h2] at h1
        exact h1
      rw [← hsplit] at hi
      rcases List.mem_append.mp hi with h1 | h1
      · exact frameAt_nonneg hf i h1
      · simp at h1
        subst h1
        simp only [Bool.and_eq_true, decide_eq_true_eq] at h
        exact h.1
    · exact absurd h (by simp)

/-! Claim theorems. -/

/-- C1, amended: when `process` (with its default arguments) returns
normally, `current_object_processed = true` and
`token_pos ≤ len(tokens)`, and when additionally the outer loop was not
left through `break` (i.e. no `StopProcessing`/`AbortProcessing` was
dispatched), `len(tokens) - 1 ≤ token_pos`.  The claim's
`token_pos = len(tokens) - 1` is refuted by `C1_counterexample`: a positive
`JumpToken` sets `token_pos = min(len(tokens), token_pos - 1 + step)`, which
can clamp to `len(tokens)`, one past the final index, and the loop then
exits normally. -/
theorem C1_process_final_state_amended {σ : Type} (fuel : Nat) (d : CbDict σ)
    (tokens : List Token) (st st' : ESt σ)
    (h : process fuel d tokens st = some (st', Except.ok ())) :
    st'.state.current_object_processed = true ∧
    st'.state.token_pos ≤ (tokens.length : Int) ∧
    (st'.broke = false → (tokens.length : Int) - 1 ≤ st'.state.token_pos) := by
  simp only [process, _process] at h
  split at h
  · exact absurd h (by simp)
  · split at h
    · exact absurd h (by simp)
    · exact absurd h (by simp)
    · rename_i st2 u heq
      have hbounds := processLoop_bounds fuel d tokens _ st2 rfl
        (by dsimp only [MachineState.reset]; omega) heq
      injection h with h
      injection h with hA hB
      subst hA
      refine ⟨rfl, ?_, ?_⟩
      · exact hbounds.1
      · intro hbf
        exact hbounds.2 hbf

/-- Witness for `C1_process_final_state_amended`: one plain token through a
single no-op callable; the run returns normally, did not `break`, and ends
with `token_pos = 0 = len(tokens) - 1` and the flag set. -/
theorem C1_process_final_state_amended_witness :
    process 10 noopDict [tokPlain] (initSt ()) = some (c1wFinal, Except.ok ()) ∧
    (c1wFinal.state.current_object_processed = true ∧
     c1wFinal.state.token_pos ≤ (([tokPlain] : List Token).length : Int) ∧
     (c1wFinal.broke = false →
       (([tokPlain] : List Token).length : Int) - 1 ≤ c1wFinal.state.token_pos)) :=
  ⟨rfl, C1_process_final_state_amended 10 noopDict [tokPlain] (initSt ()) c1wFinal rfl⟩

/-- C1, counterexample to the claim as stated: two tokens, the program
raises `JumpToken(5)` on the first token; `process` returns normally with
`current_object_processed = true` but `token_pos = 2 = len(tokens)`, not
`len(tokens) - 1 = 1`. -/
theorem C1_counterexample :
    ((process 10 jumpTokenDict [tokPlain, tokPlain] (initSt ())).map fun p =>
      (excIsOk p.2, p.1.state.token_pos, p.1.state.current_object_processed)) =
      some (true, 2, true) ∧
    ¬ ((2 : Int) = (([tokPlain, tokPlain] : List Token).length : Int) - 1) := by
  refine ⟨by decide, by decide⟩

/-- C2, amended: on an empty token list (with a non-empty `CallbackTree`)
`process` logs the warning and the token loop body never runs — no callable
is invoked and `after_object` is never called — but the call is not free of
side effects: it resets the `MachineState` (`token_pos := -1`,
`callback_pos := [0]`), replaces the engine's stored objects with the empty
list, emits `workflow_started` and `workflow_finished`, and ends with
`current_object_processed = true`.  The user memory, invocation trace,
`after_object` trace and `broke` flag are unchanged. -/
theorem C2_empty_tokens_amended {σ : Type} (d : CbDict σ) (st : ESt σ) (f : Nat)
    (hcb : cbEmpty d = false) :
    process (f + 1) d [] st =
      some ({ st with
        state := { token_pos := -1, callback_pos := [0], current_object_processed := true },
        objects := [],
        signals := st.signals ++ ["workflow_started"] ++ ["workflow_finished"],
        warnings := st.warnings ++ [emptyWarning] }, Except.ok ()) := by
  simp only [process, _process, processLoop, List.isEmpty_nil, if_true, hcb,
    Bool.false_eq_true, if_false]
  rw [if_neg (by dsimp only [MachineState.reset]; norm_num)]
  rfl

/-- Witness for `C2_empty_tokens_amended` at a concrete engine. -/
theorem C2_empty_tokens_amended_witness :
    cbEmpty noopDict = false ∧
    process 5 noopDict [] (initSt ()) =
      some ({ initSt () with
        state := { token_pos := -1, callback_pos := [0], current_object_processed := true },
        objects := [],
        signals := (initSt ()).signals ++ ["workflow_started"] ++ ["workflow_finished"],
        warnings := (initSt ()).warnings ++ [emptyWarning] }, Except.ok ()) :=
  ⟨rfl, C2_empty_tokens_amended noopDict (initSt ()) 4 rfl⟩

/-- C2, counterexample to the claim as stated: an engine mid-run (stored
objects `[tokPlain]`, `token_pos = 3`, no signals emitted yet) is asked to
`process([])`; afterwards its stored objects are `[]` (not `[tokPlain]`),
`token_pos` is `-1` (not `3`), and both `workflow_started` and
`workflow_finished` were emitted — so the call does have side effects. -/
theorem C2_counterexample :
    ((process 5 noopDict [] c2Pre).map fun p =>
      (p.1.objects, p.1.state.token_pos, p.1.signals, excIsOk p.2)) =
      some ([], -1, ["workflow_started", "workflow_finished"], true) ∧
    c2Pre.objects ≠ [] ∧ c2Pre.state.token_pos ≠ -1 ∧ c2Pre.signals = [] := by
  refine ⟨by decide, by decide, by decide, rfl⟩

/-- C3: evaluating the code at the failing input.  `restart("middle",
"first")` does not raise a `WorkflowError` naming `"middle"`: the unknown-
anchor branch evaluates `'Unknown start point %s for object: %s' % obj`
with the single string `"middle"`, which raises
`TypeError: not enough arguments for format string` — no `WorkflowError`,
and the message does not mention the anchor.  The second conjunct shows the
neighbouring defect: an unknown task anchor formats the object anchor into
the message (`restart("next", "middle")` reports `"next"`). -/
theorem C3_restart_unknown_anchor_bug :
    restartAdjust "middle" "first" MachineState.reset =
      Except.error (Exc.typeError "not enough arguments for format string") ∧
    restartAdjust "next" "middle" MachineState.reset =
      Except.error (Exc.exception "Unknown start point for task: next") := by
  refine ⟨rfl, rfl⟩

/-- C6: evaluating the code at the failing input.  When a callable raises
`HaltProcessing` (here: without an `action`, as `eng.halt('please wait')`
does), `DbTransitionAction.HaltProcessing` increments the halted counter and
then crashes with `AttributeError` on the read `eng.state.task_pos`
(`MachineState` has no such attribute): the token is never saved (with any
status, let alone `HALTED`), the engine status is never set to `HALTED`, and
the `HaltProcessing` is not re-raised — the `AttributeError` escapes
instead.  The second conjunct shows the same crash with an `action` present,
where the intended status would at least have been `HALTED` (without an
action the code would have chosen `WAITING`, against the claim and the
repository's own tests). -/
theorem C6_db_halt_crashes :
    DbHaltProcessing false MachineState.reset ⟨0, [], [], false⟩ =
      (⟨1, [], [], false⟩, Except.error (Exc.attributeError "task_pos")) ∧
    DbHaltProcessing true MachineState.reset ⟨0, [], [], false⟩ =
      (⟨1, [], [], true⟩, Except.error (Exc.attributeError "task_pos")) := by
  refine ⟨rfl, rfl⟩

/-- C5, amended: the default `callback_chooser` selects the program keyed by
`getFeature("type")` only when that feature is truthy; when `getFeature` is
present but the feature is falsy (Python `None` or `""`), the chooser falls
through and returns `None` — it does NOT fall back to the `"*"` program.
The `"*"` program is returned exactly for objects without a `getFeature`
method. -/
theorem C5_callback_chooser_amended {σ : Type} (d : CbDict σ) (tok : Token) :
    (tok.hasGetFeature = false → callback_chooser d tok = (cbGet d "*").map some) ∧
    (∀ t : String, tok.hasGetFeature = true → tok.ttype = some t → t ≠ "" →
      callback_chooser d tok = (cbGet d t).map some) ∧
    (tok.hasGetFeature = true → (tok.ttype = Option.none ∨ tok.ttype = some "") →
      callback_chooser d tok = Except.ok Option.none) := by
  refine ⟨?_, ?_, ?_⟩
  · intro hf
    simp [callback_chooser, hf]
  · intro t hf ht hne
    simp [callback_chooser, hf, ht, hne]
  · intro hf hty
    rcases hty with hty | hty <;> simp [callback_chooser, hf, hty]

/-- Witness for `C5_callback_chooser_amended`: a token whose
`getFeature("type")` is the empty string gets no program. -/
theorem C5_callback_chooser_amended_witness :
    (Token.mk true (some "") true).hasGetFeature = true ∧
    callback_chooser noopDict (Token.mk true (some "") true) = Except.ok Option.none :=
  ⟨rfl, (C5_callback_chooser_amended noopDict (Token.mk true (some "") true)).2.2 rfl
    (Or.inr rfl)⟩

/-- C5, counterexample to the claim as stated: `tokNilType` has `getFeature`
and `getFeature("type")` returns `None`; the chooser returns Python `None`,
not the `"*"` program — even though a `"*"` program is registered (third
conjunct), so the token runs no callables at all. -/
theorem C5_counterexample :
    callback_chooser noopDict tokNilType = Except.ok Option.none ∧
    (Except.ok Option.none : Except Exc (Option (List (Node Unit)))) ≠
      Except.ok (some noopProg) ∧
    cbGet noopDict "*" = Except.ok noopProg := by
  refine ⟨rfl, by simp, rfl⟩

/-- C7: the `JumpCall` arithmetic of the walker.  For a callable at an
in-range position `cur` of a frame of length `n` that raises
`JumpCall(step)`, the walker stores `min n (cur + step - 1)` (for
`step ≥ 0`) resp. `max (-1) (cur + step - 1)` (for `step < 0`) and then
increments, so the next loop index is `jumpCallNext n cur step`; whenever
the jump target `cur + step` is in range it is exactly the next index, a
forward jump past the end yields an index `≥ n` terminating the frame, and
a backward jump past the start resumes at index `0`. -/
theorem C7_jump_call_clamp (n cur step : Int) (h0 : 0 ≤ cur) (h1 : cur < n) :
    jumpCallNext n cur step =
      (if 0 ≤ step then min n (cur + step - 1) else max (-1) (cur + step - 1)) + 1 ∧
    (0 ≤ cur + step → cur + step ≤ n → jumpCallNext n cur step = cur + step) ∧
    (n < cur + step → ¬ jumpCallNext n cur step < n) ∧
    (cur + step < 0 → jumpCallNext n cur step = 0) := by
  refine ⟨rfl, ?_, ?_, ?_⟩
  · intro ha hb
    unfold jumpCallNext
    split <;> omega
  · intro ha
    unfold jumpCallNext
    split <;> omega
  · intro ha
    unfold jumpCallNext
    split <;> omega

/-- Witness for `C7_jump_call_clamp`: a backward jump past the start
(`cur = 1`, `n = 4`, `step = -7`) resumes at index `0`. -/
theorem C7_jump_call_clamp_witness :
    (0 : Int) ≤ 1 ∧ (1 : Int) < 4 ∧
    (jumpCallNext 4 1 (-7) =
      (if (0 : Int) ≤ -7 then min 4 (1 + -7 - 1) else max (-1) (1 + -7 - 1)) + 1 ∧
    ((0 : Int) ≤ 1 + -7 → (1 : Int) + -7 ≤ 4 → jumpCallNext 4 1 (-7) = 1 + -7) ∧
    ((4 : Int) < 1 + -7 → ¬ jumpCallNext 4 1 (-7) < 4) ∧
    ((1 : Int) + -7 < 0 → jumpCallNext 4 1 (-7) = 0)) :=
  ⟨by norm_num, by norm_num, C7_jump_call_clamp 4 1 (-7) (by norm_num) (by norm_num)⟩

theorem cleanupList_append (xs ys : List PyTree) :
    cleanupList (xs ++ ys) = cleanupList xs ++ cleanupList ys := by
  induction xs with
  | nil => rfl
  | cons x xs ih =>
    simp only [List.cons_append, cleanupList, List.append_assoc]
    exact congrArg (fun l => cleanupOne x ++ l) ih

mutual

theorem cleanupList_cleanupOne : ∀ (x : PyTree), cleanupList (cleanupOne x) = cleanupOne x
  | PyTree.func i => rfl
  | PyTree.nil => rfl
  | PyTree.list ys => by
    simp only [cleanupOne, cleanupList, List.append_nil]
    rw [cleanupList_idem ys]
  | PyTree.tuple ys => by
    simp only [cleanupOne]
    exact cleanupList_idem ys

theorem cleanupList_idem : ∀ (xs : List PyTree), cleanupList (cleanupList xs) = cleanupList xs
  | [] => rfl
  | x :: xs => by
    simp only [cleanupList, cleanupList_append]
    rw [cleanupList_cleanupOne x, cleanupList_idem xs]

end

theorem foldl_cbAdd_some (L : List PyTree) (acc : List PyTree) :
    List.foldl cbAdd (some acc) L = some (acc ++ L.filter pyTruthy) := by
  induction L generalizing acc with
  | nil => simp
  | cons x xs ih =>
    by_cases hx : pyTruthy x = true
    · rw [List.filter_cons_of_pos hx, List.foldl_cons]
      simp only [cbAdd, if_pos hx, ih, List.append_assoc, List.singleton_append]
    · rw [List.filter_cons_of_neg (by simpa using hx), List.foldl_cons]
      simp only [cbAdd, if_neg hx, ih]

theorem foldl_cbAdd_none (L : List PyTree) :
    List.foldl cbAdd Option.none L =
      (if (L.filter pyTruthy).isEmpty then Option.none else some (L.filter pyTruthy)) := by
  induction L with
  | nil => rfl
  | cons x xs ih =>
    by_cases hx : pyTruthy x = true
    · rw [List.filter_cons_of_pos hx, List.foldl_cons]
      simp only [cbAdd, if_pos hx]
      rw [foldl_cbAdd_some]
      rfl
    · rw [List.filter_cons_of_neg (by simpa using hx), List.foldl_cons]
      simp only [cbAdd, if_neg hx]
      exact ih

/-- C8, amended: the entry stored by `Callbacks.replace` is the cleaned
program (tuples recursively spliced, lists kept nested with their contents
recursively cleaned, `None` leaves dropped) with one extra effect of `add`'s
`if func:` truthiness test: any *top-level* element of the cleaned program
that is falsy — i.e. a nested list that cleaned to `[]` — is silently
dropped as well, and if nothing truthy remains, no entry is created at
all. -/
theorem C8_replace_amended (funcs : List PyTree) :
    cbReplace funcs =
      (if ((cleanupList funcs).filter pyTruthy).isEmpty then Option.none
       else some ((cleanupList funcs).filter pyTruthy)) := by
  unfold cbReplace cbAddMany
  rw [cleanupList_idem, foldl_cbAdd_none]

/-- C8, counterexample to the claim as stated: `replace([[], f])` stores
`[f]`, while the claimed flattening (`cleanupList`, second conjunct) keeps
the empty nested list: the stored program is not the input with tuples
spliced, lists nested and `None` dropped. -/
theorem C8_counterexample :
    cbReplace [PyTree.list [], PyTree.func 0] = some [PyTree.func 0] ∧
    cleanupList [PyTree.list [], PyTree.func 0] = [PyTree.list [], PyTree.func 0] ∧
    some [PyTree.func 0] ≠ some [PyTree.list [], PyTree.func 0] := by
  refine ⟨rfl, rfl, by simp⟩

/-- C4, amended: for a token for which `callback_chooser` returns no program
(Python `None` or an empty list), the loop iteration neither runs a callable
nor invokes `factory.after_object` — there is no `else` on `if callbacks:`
in `_process`, so the token is simply passed over: the iteration just
advances `token_pos` and resets `callback_pos`. -/
theorem C4_no_program_no_after_object {σ : Type} (fuel : Nat) (d : CbDict σ)
    (tokens : List Token) (st : ESt σ) (obj : Token)
    (hcond : (tokens.length : Int) - 1 > st.state.token_pos)
    (hobj : pyIdx tokens (st.state.token_pos + 1) = some obj)
    (hch : callback_chooser d obj = Except.ok Option.none ∨
           callback_chooser d obj = Except.ok (some ([] : List (Node σ)))) :
    processLoop (fuel + 1) d tokens st =
      processLoop fuel d tokens ((st.withTp (st.state.token_pos + 1)).withCp [0]) := by
  simp only [processLoop, ESt.withTp_token_pos]
  rw [if_pos hcond]
  rcases hch with hch | hch <;> simp only [hobj, hch] <;> rfl

/-- Witness for `C4_no_program_no_after_object`: `tokNilType` (whose
`getFeature("type")` is `None`) is passed over by one loop iteration. -/
theorem C4_no_program_no_after_object_witness :
    ((([tokNilType] : List Token).length : Int) - 1 > (initSt ()).state.token_pos) ∧
    pyIdx [tokNilType] ((initSt ()).state.token_pos + 1) = some tokNilType ∧
    processLoop 4 noopDict [tokNilType] (initSt ()) =
      processLoop 3 noopDict [tokNilType]
        (((initSt ()).withTp ((initSt ()).state.token_pos + 1)).withCp [0]) :=
  ⟨by decide, rfl,
   C4_no_program_no_after_object 3 noopDict [tokNilType] (initSt ()) tokNilType
     (by decide) rfl (Or.inl rfl)⟩

/-- C4, counterexample to the claim as stated: a run over
`[tokNilType, tokPlain]` where the first token gets no program.  Afterwards
`after_object_calls = [1]`: `after_object` was invoked for token 1 only,
never for the program-less token 0 (the claim would require `[0, 1]`); and
only token 1 ran a callable. -/
theorem C4_counterexample :
    ((process 10 noopDict [tokNilType, tokPlain] (initSt ())).map fun p =>
      (p.1.after_object_calls, p.1.invocations, excIsOk p.2)) =
      some ([1], [[0]], true) ∧
    ([1] : List Int) ≠ [0, 1] := by
  refine ⟨by decide, by decide⟩

/-- C10: in the generic engine the effective `SkipToken` and
`AbortProcessing` handlers (the second definitions in the
`TransitionActions` class body, engine.py lines 972-990) call
`obj.log.debug`; when the current token has no `log` attribute the resulting
`AttributeError` is not caught by the `except Break:`/`except Continue:`
wrapper in `_process`, so the token is neither skipped nor the run stopped
gracefully: exactly one callable ran (`invocations = [[0]]`), `token_pos`
is still `0`, later tokens are untouched, and the `AttributeError` escapes
to the caller of `process`. -/
theorem C10_skip_abort_attribute_error {σ : Type} (f : Nat) (m0 : σ) (t : Token)
    (ts : List Token) (hlog : t.hasLog = false) (hfeat : t.hasGetFeature = false) :
    process (f + 2) [("*", [Node.func fun m _ => (m, some Exc.skipToken)])] (t :: ts)
        (initSt m0) = some (raiserSt m0 t ts, Except.error (Exc.attributeError "log")) ∧
    process (f + 2) [("*", [Node.func fun m _ => (m, some Exc.abortProcessing)])] (t :: ts)
        (initSt m0) = some (raiserSt m0 t ts, Except.error (Exc.attributeError "log")) := by
  have hcond2 : (-1 : Int) < (ts.length : Int) := by omega
  constructor <;>
  · rw [show f + 2 = Nat.succ (Nat.succ f) from rfl]
    simp only [process, _process, processLoop, runCallbacks]
    simp [hcond2, hlog, hfeat, pyIdx_cons_zero, ESt.withTp, ESt.withCp, ESt.cp, initSt,
      MachineState.reset, transitionDispatch, callback_chooser, cbGet, cbLookup, frameTruthy,
      raiserSt, cbEmpty, Except.map, Option.getD]

/-- Witness for `C10_skip_abort_attribute_error`: `tokNoLog` over a
singleton token list. -/
theorem C10_skip_abort_attribute_error_witness :
    tokNoLog.hasLog = false ∧ tokNoLog.hasGetFeature = false ∧
    (process 2 [("*", [Node.func fun m _ => (m, some Exc.skipToken)])] [tokNoLog]
        (initSt ()) =
        some (raiserSt () tokNoLog [], Except.error (Exc.attributeError "log")) ∧
     process 2 [("*", [Node.func fun m _ => (m, some Exc.abortProcessing)])] [tokNoLog]
        (initSt ()) =
        some (raiserSt () tokNoLog [], Except.error (Exc.attributeError "log"))) :=
  ⟨rfl, rfl, C10_skip_abort_attribute_error 0 () tokNoLog [] rfl rfl⟩

theorem runCallbacks_inv {σ : Type} (prog : List (Node σ)) :
    ∀ (fuel : Nat) (frame : List (Node σ)) (indent : Nat) (obj : Token)
      (st st' : ESt σ) (r : Except Exc Unit) (ctx : List Int) (j : Int),
      st.cp = ctx ++ [j] → ctx.length = indent → frameAt prog ctx = some frame → 0 ≤ j →
      runCallbacks fuel frame indent obj st = some (st', r) →
      (∀ p ∈ st'.invocations, p ∈ st.invocations ∨ addrOkB prog p = true) ∧
      (r = Except.ok () → ∃ j2, st'.cp = ctx ++ [j2]) := by
  intro fuel
  induction fuel with
  | zero =>
    intro frame indent obj st st' r ctx j hcp hlen hfr hj h
    simp [runCallbacks] at h
  | succ fuel IH =>
    intro frame indent obj st st' r ctx j hcp hlen hfr hj h
    have hget : st.cp.get? indent = some j := by
      rw [hcp, ← hlen]
      exact List.get?_concat_length ctx j
    have hlencp : st.cp.length = indent + 1 := by
      rw [hcp]
      simp [hlen]
    have hget2 : (ctx ++ [j] : List Int).get? indent = some j := by
      rw [← hlen]
      exact List.get?_concat_length ctx j
    have hset1 : (ctx ++ [j] : List Int).set indent (j + 1) = ctx ++ [j + 1] := by
      rw [← hlen]
      exact set_concat ctx j (j + 1)
    have hcp2 : st.state.callback_pos = ctx ++ [j] := hcp
    simp only [runCallbacks, hget] at h
    split at h
    · rename_i hlt
      split at h
      · rename_i hff
        rw [hlencp] at hff
        omega
      · have hpy : pyIdx frame j = frame.get? j.toNat := pyIdx_nonneg_lt frame j hj hlt
        split at h
        · rename_i hidx
          rw [hpy] at hidx
          have := List.get?_eq_none.mp hidx
          omega
        · -- descent into Node.list children
          rename_i children hidx
          rw [hpy] at hidx
          have hfr2 : frameAt prog (ctx ++ [j]) = some children :=
            frameAt_concat hfr hj hidx
          split at h
          · exact absurd h (by simp)
          · rename_i st1 e heq1
            injection h with h
            injection h with hA hB
            subst hA
            subst hB
            have hih := IH children (indent + 1) obj _ st1 (Except.error e) (ctx ++ [j]) 0
              (by simp [ESt.cp, ESt.withCp, hcp2]) (by simp [hlen]) hfr2 le_rfl heq1
            refine ⟨?_, ?_⟩
            · intro p hp
              exact hih.1 p hp
            · intro habs
              exact absurd habs (by simp)
          · rename_i st1 u heq1
            have hih := IH children (indent + 1) obj _ st1 (Except.ok u) (ctx ++ [j]) 0
              (by simp [ESt.cp, ESt.withCp, hcp2]) (by simp [hlen]) hfr2 le_rfl heq1
            obtain ⟨j2, hj2⟩ := hih.2 rfl
            simp only [hj2, pyPop_concat, hget2, hset1] at h
            have hih2 := IH frame indent obj _ st' r ctx (j + 1)
              (by simp [ESt.cp, ESt.withCp]) hlen hfr (by omega) h
            refine ⟨?_, hih2.2⟩
            intro p hp
            rcases hih2.1 p hp with h1 | h1
            · rcases hih.1 p (by simpa [ESt.withCp] using h1) with h2 | h2
              · exact Or.inl (by simpa [ESt.withCp] using h2)
              · exact Or.inr h2
            · exact Or.inr h1
        · -- callable invocation
          rename_i fn hidx
          rw [hpy] at hidx
          have haddr : addrOkB prog (ctx ++ [j]) = true := addrOkB_concat hfr hj hlt
          split at h
          · -- normal return of the callable
            have hih := IH frame indent obj _ st' r ctx (j + 1)
              (by simp [ESt.cp, ESt.withCp, hcp2, hset1]) hlen hfr (by omega) h
            refine ⟨?_, hih.2⟩
            intro p hp
            rcases hih.1 p hp with h1 | h1
            · have h3 : p ∈ st.invocations ∨ p = st.cp := by
                simpa [ESt.withCp] using h1
              rcases h3 with h2 | h2
              · exact Or.inl h2
              · subst h2
                exact Or.inr (by rw [hcp]; exact haddr)
            · exact Or.inr h1
          · -- BreakFromThisLoop
            injection h with h
            injection h with hA hB
            subst hA
            subst hB
            refine ⟨?_, ?_⟩
            · intro p hp
              have h3 : p ∈ st.invocations ∨ p = st.cp := by simpa using hp
              rcases h3 with h2 | h2
              · exact Or.inl h2
              · subst h2
                exact Or.inr (by rw [hcp]; exact haddr)
            · intro _
              exact ⟨j, by simp [ESt.cp, hcp2]⟩
          · -- JumpCall
            rename_i step hstep
            have hset2 : (ctx ++ [j] : List Int).set indent
                (jumpCallNext (frame.length : Int) j step) =
                ctx ++ [jumpCallNext (frame.length : Int) j step] := by
              rw [← hlen]
              exact set_concat ctx j _
            have hih := IH frame indent obj _ st' r ctx
              (jumpCallNext (frame.length : Int) j step)
              (by simp [ESt.cp, ESt.withCp, hcp2, hset2])
              hlen hfr (jumpCallNext_nonneg _ _ _ hj (by positivity)) h
            refine ⟨?_, hih.2⟩
            intro p hp
            rcases hih.1 p hp with h1 | h1
            · have h3 : p ∈ st.invocations ∨ p = st.cp := by
                simpa [ESt.withCp] using h1
              rcases h3 with h2 | h2
              · exact Or.inl h2
              · subst h2
                exact Or.inr (by rw [hcp]; exact haddr)
            · exact Or.inr h1
          · -- any other exception propagates
            injection h with h
            injection h with hA hB
            subst hA
            subst hB
            refine ⟨?_, ?_⟩
            · intro p hp
              have h3 : p ∈ st.invocations ∨ p = st.cp := by simpa using hp
              rcases h3 with h2 | h2
              · exact Or.inl h2
              · subst h2
                exact Or.inr (by rw [hcp]; exact haddr)
            · intro habs
              exact absurd habs (by simp)
    · -- loop exit
      rename_i hlt
      injection h with h
      injection h with hA hB
      subst hA
      subst hB
      refine ⟨fun p hp => Or.inl (by simpa using hp), ?_⟩
      intro _
      refine ⟨j - 1, ?_⟩
      simp [ESt.cp, ESt.withCp, hcp2]
      rw [← hlen]
      exact set_concat ctx j (j - 1)

/-- C9: the `callback_pos` invariant at callable-invocation boundaries.  For
every run of the walker that starts from the between-token reset state
(`callback_pos = [0]`), every `callback_pos` recorded at a callable
invocation is a non-empty list of non-negative integers that addresses an
actual position of the installed program (`addrOkB`): every entry on the way
descends through a nested `list` node and the last entry is in range of the
frame it reaches — in particular the length of `callback_pos` never exceeds
the nesting depth of the program at the position it addresses.  The
induction (`runCallbacks_inv`) covers the walker's descent/ascent, the
`JumpCall` clamping and the between-token reset, as the claim lists. -/
theorem C9_callback_pos_invariant {σ : Type} (prog : List (Node σ)) (fuel : Nat)
    (obj : Token) (st st' : ESt σ) (r : Except Exc Unit)
    (hcp : st.cp = [0])
    (h : runCallbacks fuel prog 0 obj st = some (st', r)) :
    ∀ p ∈ st'.invocations, p ∈ st.invocations ∨
      (p ≠ [] ∧ (∀ i ∈ p, 0 ≤ i) ∧ addrOkB prog p = true) := by
  have hmain := runCallbacks_inv prog fuel prog 0 obj st st' r [] 0
    (by simpa using hcp) rfl rfl le_rfl h
  intro p hp
  rcases hmain.1 p hp with h1 | h1
  · exact Or.inl h1
  · exact Or.inr ⟨(addrOkB_shape h1).1, (addrOkB_shape h1).2, h1⟩

/-- Witness for `C9_callback_pos_invariant`: the nested program
`[f, [f, [f], f], f]` over one token records the invocation paths
`[0], [1,0], [1,1,0], [1,2], [2]`, all addressing real positions. -/
theorem C9_callback_pos_invariant_witness :
    (initSt ([] : List Nat)).cp = [0] ∧
    runCallbacks 50 nestedProg 0 tokPlain (initSt []) = some (nestedFinal, Except.ok ()) ∧
    ∀ p ∈ nestedFinal.invocations, p ∈ (initSt ([] : List Nat)).invocations ∨
      (p ≠ [] ∧ (∀ i ∈ p, 0 ≤ i) ∧ addrOkB nestedProg p = true) :=
  ⟨rfl, rfl, C9_callback_pos_invariant nestedProg 50 tokPlain (initSt []) nestedFinal
    (Except.ok ()) rfl rfl⟩

end Workflow
